import Mathlib

/-!
Verification development for the `cards_to_contacts` repository.

The parsing pipeline (`src/cards_to_contacts/parser.py`,
`src/cards_to_contacts/models.py`) and the OCR scoring / segmentation control
flow (`src/cards_to_contacts/ocr.py`) are embedded shallowly:

* text is `List Char` with Python's ASCII string semantics (`strip`, `split`,
  `lower`, `isupper`, ...) reimplemented as executable functions;
* every regular expression used by the parser is embedded as an executable
  matcher that reproduces CPython `re` semantics (leftmost scan, ordered
  alternation, greedy quantifiers with backtracking) on the concrete pattern;
* floats are modelled by `ℚ` (all arithmetic performed by the source on its
  confidence scores is exact decimal arithmetic and comparisons);
* calls into OpenCV / PIL / pytesseract are uninterpreted: each external call
  becomes a parameter recording its outcome, exceptions becoming `none`
  or `Except.error`, and the Python control flow around them is translated
  exactly.
-/

namespace Cards

/-! ## Python character predicates (ASCII model)

The source processes OCR text; the Tesseract configurations in `ocr.py`
whitelist ASCII characters, so the embedding models Python's Unicode-aware
`str` predicates on the ASCII range. -/

def isWsChar (c : Char) : Bool :=
  c = ' ' || c = '\t' || c = '\n' || c = '\r' || c = '\x0b' || c = '\x0c'

def isUpperChar (c : Char) : Bool := 'A' ≤ c && c ≤ 'Z'

def isLowerChar (c : Char) : Bool := 'a' ≤ c && c ≤ 'z'

def isAlphaChar (c : Char) : Bool := isUpperChar c || isLowerChar c

def isDigitChar (c : Char) : Bool := '0' ≤ c && c ≤ '9'

def isAlnumChar (c : Char) : Bool := isAlphaChar c || isDigitChar c

/-- Matches `\w` of Python `re`: letters, digits and underscore. -/
def isWordChar (c : Char) : Bool := isAlnumChar c || c = '_'

def lowerChar (c : Char) : Char :=
  if isUpperChar c then Char.ofNat (c.toNat + 32) else c

/-! ## Python string operations on `List Char` -/

def lowerStr (s : List Char) : List Char := s.map lowerChar

/-- Python `str.strip()`. -/
def pyStrip (s : List Char) : List Char :=
  ((s.dropWhile isWsChar).reverse.dropWhile isWsChar).reverse

/-- Python `str.split()` (split on runs of whitespace, no empty parts);
fuel-structured so that it also evaluates inside the kernel, with
`fuel = length` always sufficient since every step consumes a character. -/
def pySplitWsAux : Nat → List Char → List (List Char)
  | 0, _ => []
  | _ + 1, [] => []
  | fuel + 1, c :: rest =>
    if isWsChar c then pySplitWsAux fuel rest
    else
      let w := rest.takeWhile (fun ch => !isWsChar ch)
      (c :: w) :: pySplitWsAux fuel (rest.drop w.length)

def pySplitWs (s : List Char) : List (List Char) := pySplitWsAux s.length s

/-- Python `str.split(sep)` for a one-character separator (no run collapsing). -/
def pySplitOn (sep : Char) : List Char → List (List Char)
  | [] => [[]]
  | c :: rest =>
    if c = sep then [] :: pySplitOn sep rest
    else
      match pySplitOn sep rest with
      | [] => [[c]]
      | w :: ws => (c :: w) :: ws

/-- Python `str.islower()`: at least one cased character and no uppercase one. -/
def pyIsLowerStr (s : List Char) : Bool :=
  s.any isAlphaChar && !s.any isUpperChar

/-- Python `str.isalpha()`: non-empty and all alphabetic. -/
def pyIsAlphaStr (s : List Char) : Bool :=
  !s.isEmpty && s.all isAlphaChar

/-- Python truthiness of an optional string (`None` and `""` are falsy). -/
def isTruthy : Option (List Char) → Bool
  | none => false
  | some s => !s.isEmpty

/-- Python `"x".join(parts)` for a one-character joiner. -/
def joinWith (j : Char) : List (List Char) → List Char
  | [] => []
  | [w] => w
  | w :: ws => w ++ j :: joinWith j ws

/-- Python substring containment `needle in hay`. -/
def isSubstr (needle hay : List Char) : Bool :=
  hay.tails.any (fun t => needle.isPrefixOf t)

/-- Case-insensitive literal match at the head of `s` (for `re.I` patterns). -/
def ciHeadMatch (lit s : List Char) : Bool :=
  lowerStr (s.take lit.length) = lowerStr lit && lit.length ≤ s.length

/-! ## Generic scanning (CPython `re.findall` / `re.search` driver)

`re` tries to match at positions 0, 1, 2, …; on a (non-empty) match at some
position, `findall` records it and resumes scanning right after it.  Every
matcher below returns the pair (matched characters, rest of the input) and
never matches the empty string, so a fuel of `length s` suffices. -/

def scanAux (m : List Char → Option (List Char × List Char)) :
    Nat → List Char → List (List Char)
  | 0, _ => []
  | _ + 1, [] => []
  | fuel + 1, c :: cs =>
    match m (c :: cs) with
    | some (mt, rest) => mt :: scanAux m fuel rest
    | none => scanAux m fuel cs

def findAll (m : List Char → Option (List Char × List Char)) (s : List Char) :
    List (List Char) :=
  scanAux m s.length s

/-! ## `EMAIL_RE = [\w.+-]+@[\w-]+\.[\w.-]+`  (parser.py line 14)

Each character segment is a greedy run over a set disjoint from the literal
that follows it (`@` resp. `.` are outside the preceding sets, except for the
final run which has no continuation), so maximal munch reproduces the
backtracking result exactly. -/

def emailLocalChar (c : Char) : Bool := isWordChar c || c = '.' || c = '+' || c = '-'

def emailDomChar (c : Char) : Bool := isWordChar c || c = '-'

def emailTailChar (c : Char) : Bool := isWordChar c || c = '.' || c = '-'

def emailMatchAt (cs : List Char) : Option (List Char × List Char) :=
  let l := cs.takeWhile emailLocalChar
  if l.isEmpty then none
  else
    match cs.drop l.length with
    | '@' :: r2 =>
      let d := r2.takeWhile emailDomChar
      if d.isEmpty then none
      else
        match r2.drop d.length with
        | '.' :: r4 =>
          let t := r4.takeWhile emailTailChar
          if t.isEmpty then none
          else some (l ++ '@' :: d ++ '.' :: t, r4.drop t.length)
        | _ => none
    | _ => none

def emailFindAll (s : List Char) : List (List Char) := findAll emailMatchAt s

def emailSearch (s : List Char) : Bool := !(emailFindAll s).isEmpty

/-! ## `PHONE_RE` (parser.py lines 15-17)

`(?:\+?\d{1,3}[-.\s]?)?(?:\(?\d{3}\)?[-.\s]?\d{3}[-.\s]?\d{4}|\d{3}[-.\s]?\d{3}[-.\s]?\d{4}|\d{10})`

Each optional single-character element (`\+?`, `\(?`, `\)?`, `[-.\s]?`) and the
counted quantifier `\d{1,3}` is expanded into its list of alternatives in
CPython's backtracking preference order (present/longest first), and the first
completed parse is taken, which is exactly the backtracking result. -/

def isSepChar (c : Char) : Bool := c = '-' || c = '.' || isWsChar c

/-- Alternatives of a single optional character, in backtracking order. -/
def optChoices (p : Char → Bool) : List Char → List (List Char × List Char)
  | [] => [([], [])]
  | c :: rest => if p c then [([c], rest), ([], c :: rest)] else [([], c :: rest)]

/-- `\d{n}`: exactly `n` digits. -/
def exactDigits : Nat → List Char → Option (List Char × List Char)
  | 0, cs => some ([], cs)
  | _ + 1, [] => none
  | n + 1, c :: cs =>
    if isDigitChar c then
      match exactDigits n cs with
      | some (d, r) => some (c :: d, r)
      | none => none
    else none

/-- `\(?\d{3}\)?[-.\s]?\d{3}[-.\s]?\d{4}` — first alternative of the main group. -/
def phoneAlt1 (cs : List Char) : Option (List Char × List Char) :=
  ((optChoices (· = '(') cs).flatMap fun (o1, r1) =>
    match exactDigits 3 r1 with
    | none => []
    | some (d1, r2) =>
      (optChoices (· = ')') r2).flatMap fun (o2, r3) =>
        (optChoices isSepChar r3).flatMap fun (s1, r4) =>
          match exactDigits 3 r4 with
          | none => []
          | some (d2, r5) =>
            (optChoices isSepChar r5).flatMap fun (s2, r6) =>
              match exactDigits 4 r6 with
              | none => []
              | some (d3, r7) =>
                [(o1 ++ d1 ++ o2 ++ s1 ++ d2 ++ s2 ++ d3, r7)]).head?

/-- `\d{3}[-.\s]?\d{3}[-.\s]?\d{4}` — second alternative of the main group. -/
def phoneAlt2 (cs : List Char) : Option (List Char × List Char) :=
  (match exactDigits 3 cs with
    | none => []
    | some (d1, r2) =>
      (optChoices isSepChar r2).flatMap fun (s1, r3) =>
        match exactDigits 3 r3 with
        | none => []
        | some (d2, r4) =>
          (optChoices isSepChar r4).flatMap fun (s2, r5) =>
            match exactDigits 4 r5 with
            | none => []
            | some (d3, r6) =>
              [(d1 ++ s1 ++ d2 ++ s2 ++ d3, r6)]).head?

/-- `\d{10}` — third alternative of the main group. -/
def phoneAlt3 (cs : List Char) : Option (List Char × List Char) := exactDigits 10 cs

/-- Ordered alternation of the three main alternatives. -/
def phoneMain (cs : List Char) : Option (List Char × List Char) :=
  match phoneAlt1 cs with
  | some r => some r
  | none =>
    match phoneAlt2 cs with
    | some r => some r
    | none => phoneAlt3 cs

/-- Candidates for the optional group `(?:\+?\d{1,3}[-.\s]?)?`, in CPython
backtracking order: group present (`\+?` choice outermost, then `\d{1,3}`
with 3, 2, 1 digits, then the optional separator), then group absent. -/
def phonePreCands (cs : List Char) : List (List Char × List Char) :=
  ((optChoices (· = '+') cs).flatMap fun (p, r1) =>
    ([3, 2, 1].flatMap fun n =>
      match exactDigits n r1 with
      | none => []
      | some (d, r2) =>
        (optChoices isSepChar r2).map fun (sp, r3) => (p ++ d ++ sp, r3))) ++ [([], cs)]

def phoneMatchAt (cs : List Char) : Option (List Char × List Char) :=
  ((phonePreCands cs).filterMap fun (pre, rest) =>
    match phoneMain rest with
    | some (m, r) => some (pre ++ m, r)
    | none => none).head?

def phoneFindAll (s : List Char) : List (List Char) := findAll phoneMatchAt s

def phoneSearch (s : List Char) : Bool := !(phoneFindAll s).isEmpty

/-- `PHONE_CLEAN_RE.sub("", ...)` / `re.sub(r'[^0-9+]', '', ...)`:
keep only digits and `+` (parser.py line 250, models.py line 10). -/
def phoneClean (s : List Char) : List Char :=
  s.filter (fun c => isDigitChar c || c = '+')

/-! ## `WEBSITE_RE` (parser.py line 18)

`(?:https?://)?(?:www\.)?[\w.-]+\.[a-z]{2,}(?:/\S*)?` with `re.I`.

The host run `[\w.-]+` backtracks against the literal `.`: CPython tries the
longest run first and shortens it until the next character is a dot; since
`.` belongs to the run's own set, every split point lies inside the maximal
run, and they are tried from the longest prefix down.  `[a-z]{2,}` (any letter
under `re.I`) is greedy with nothing mandatory behind it, as is the optional
`/\S*` tail, so maximal munch is exact for both. -/

def hostChar (c : Char) : Bool := isWordChar c || c = '.' || c = '-'

/-- Try host split points `k = n, n-1, …, 1` (length of `[\w.-]+`):
require a `.` right after, then at least two letters. -/
def websiteHostAt (cs : List Char) : Nat → Option (List Char × List Char)
  | 0 => none
  | k + 1 =>
    match cs.drop (k + 1) with
    | '.' :: r =>
      let l := r.takeWhile isAlphaChar
      if l.length < 2 then websiteHostAt cs k
      else
        let r2 := r.drop l.length
        match r2 with
        | '/' :: r3 =>
          let tail := r3.takeWhile (fun c => !isWsChar c)
          some (cs.take (k + 1) ++ '.' :: l ++ '/' :: tail, r3.drop tail.length)
        | _ => some (cs.take (k + 1) ++ '.' :: l, r2)
    | _ => websiteHostAt cs k

def websiteMatchAt (cs : List Char) : Option (List Char × List Char) :=
  (([("https://".toList), ("http://".toList), []].flatMap fun scheme =>
    if ciHeadMatch scheme cs then
      let r1 := cs.drop scheme.length
      [("www.".toList), []].flatMap fun www =>
        if ciHeadMatch www r1 then
          let r2 := r1.drop www.length
          let run := r2.takeWhile hostChar
          match websiteHostAt r2 run.length with
          | some (m, rest) => [(cs.take scheme.length ++ r1.take www.length ++ m, rest)]
          | none => []
        else []
    else []).head?)

def websiteFindAll (s : List Char) : List (List Char) := findAll websiteMatchAt s

def websiteSearch (s : List Char) : Bool := !(websiteFindAll s).isEmpty

/-! ## Keyword alternations with word boundaries (parser.py lines 21-33)

`TITLE_KEYWORDS` and `COMPANY_INDICATORS` have the shape `\b(?:k1|k2|…)\b`
under `re.I`.  A `\b` holds between two positions iff exactly one side is a
word character (out of range counts as non-word).  At each scan position the
alternatives are tried in pattern order; `findall` records the matched text
slice and resumes after it. -/

def isWordOpt : Option Char → Bool
  | none => false
  | some c => isWordChar c

def isBoundary (pre cur : Option Char) : Bool := isWordOpt pre != isWordOpt cur

/-- First keyword of `kws` matching case-insensitively at the head of `s` with
a trailing `\b`; returns the matched slice of `s` and the rest. -/
def kwAltAt (kws : List (List Char)) (s : List Char) : Option (List Char × List Char) :=
  match kws with
  | [] => none
  | kw :: rest =>
    if ciHeadMatch kw s && isBoundary ((s.take kw.length).getLast?) ((s.drop kw.length).head?) then
      some (s.take kw.length, s.drop kw.length)
    else kwAltAt rest s

/-- Scan driver for `\b(?:…)\b` patterns, carrying the previous character for
the leading boundary. -/
def kwScanAux (kws : List (List Char)) : Nat → Option Char → List Char → List (List Char)
  | 0, _, _ => []
  | _ + 1, _, [] => []
  | fuel + 1, pre, c :: cs =>
    if isBoundary pre (some c) then
      match kwAltAt kws (c :: cs) with
      | some (m, rest) => m :: kwScanAux kws fuel m.getLast? rest
      | none => kwScanAux kws fuel (some c) cs
    else kwScanAux kws fuel (some c) cs

def kwFindAll (kws : List (List Char)) (s : List Char) : List (List Char) :=
  kwScanAux kws s.length none s

def kwSearch (kws : List (List Char)) (s : List Char) : Bool :=
  !(kwFindAll kws s).isEmpty

def titleKeywords : List (List Char) :=
  ["CEO", "CTO", "CFO", "COO", "VP", "Vice President", "President", "Director",
   "Manager", "Senior", "Lead", "Principal", "Engineer", "Developer", "Designer",
   "Analyst", "Consultant", "Specialist", "Coordinator", "Assistant", "Executive",
   "Founder", "Owner", "Partner", "Sales", "Marketing", "HR", "Operations",
   "Finance", "Legal", "Admin"].map String.toList

def companyKeywords : List (List Char) :=
  ["Inc", "LLC", "Corp", "Corporation", "Company", "Co.", "Ltd", "Limited",
   "Group", "Associates", "Partners", "Solutions", "Services", "Systems",
   "Technologies", "Tech", "Consulting", "International", "Global",
   "Enterprises", "Holdings"].map String.toList

def titleKwSearch (s : List Char) : Bool := kwSearch titleKeywords s

def titleKwFindAll (s : List Char) : List (List Char) := kwFindAll titleKeywords s

def companyKwSearch (s : List Char) : Bool := kwSearch companyKeywords s

/-! ## `ADDRESS_PATTERNS` (parser.py lines 36-42)

`\b(?:\d+\s+\w+\s+(?:St|Street|…|Parkway)|P\.?O\.?\s+Box\s+\d+|\d{5}(?:-\d{4})?)\b`
with `re.I`.  In the first alternative every greedy run (`\d+`, `\s+`, `\w+`)
is over a set disjoint from what follows it, so maximal munch is exact; the
street-suffix alternation is tried in order with the outer trailing `\b`.  In
the second alternative each `\.?` sits before a character outside its set, and
the final `\d+` is maximal (shortening it leaves a digit, which is a word
character, so the trailing `\b` would fail the same way).  The third
alternative tries `-\d{4}` present, then absent, each with the trailing `\b`. -/

def streetSuffixes : List (List Char) :=
  ["St", "Street", "Ave", "Avenue", "Rd", "Road", "Blvd", "Boulevard", "Dr",
   "Drive", "Ln", "Lane", "Ct", "Court", "Pl", "Place", "Way", "Circle",
   "Pkwy", "Parkway"].map String.toList

/-- `\d+\s+\w+\s+(?:St|…|Parkway)` followed by the outer trailing `\b`. -/
def addrAlt1 (cs : List Char) : Option (List Char × List Char) :=
  let d := cs.takeWhile isDigitChar
  if d.isEmpty then none
  else
    let r1 := cs.drop d.length
    let w1 := r1.takeWhile isWsChar
    if w1.isEmpty then none
    else
      let r2 := r1.drop w1.length
      let wd := r2.takeWhile isWordChar
      if wd.isEmpty then none
      else
        let r3 := r2.drop wd.length
        let w2 := r3.takeWhile isWsChar
        if w2.isEmpty then none
        else
          let r4 := r3.drop w2.length
          match kwAltAt streetSuffixes r4 with
          | some (sfx, rest) => some (d ++ w1 ++ wd ++ w2 ++ sfx, rest)
          | none => none

/-- `P\.?O\.?\s+Box\s+\d+` followed by the outer trailing `\b`. -/
def addrAlt2 (cs : List Char) : Option (List Char × List Char) :=
  match cs with
  | p :: r1 =>
    if lowerChar p = 'p' then
      let (dot1, r2) := match r1 with
        | '.' :: t => (['.'], t)
        | _ => (([] : List Char), r1)
      match r2 with
      | o :: r3 =>
        if lowerChar o = 'o' then
          let (dot2, r4) := match r3 with
            | '.' :: t => (['.'], t)
            | _ => (([] : List Char), r3)
          let w1 := r4.takeWhile isWsChar
          if w1.isEmpty then none
          else
            let r5 := r4.drop w1.length
            if ciHeadMatch "Box".toList r5 then
              let r6 := r5.drop 3
              let w2 := r6.takeWhile isWsChar
              if w2.isEmpty then none
              else
                let r7 := r6.drop w2.length
                let dgs := r7.takeWhile isDigitChar
                if dgs.isEmpty then none
                else
                  let rest := r7.drop dgs.length
                  if isBoundary dgs.getLast? rest.head? then
                    some (p :: dot1 ++ o :: dot2 ++ w1 ++ r5.take 3 ++ w2 ++ dgs, rest)
                  else none
            else none
        else none
      | [] => none
    else none
  | [] => none

/-- `\d{5}(?:-\d{4})?` followed by the outer trailing `\b`. -/
def addrAlt3 (cs : List Char) : Option (List Char × List Char) :=
  match exactDigits 5 cs with
  | none => none
  | some (d5, r1) =>
    let withExt : Option (List Char × List Char) :=
      match r1 with
      | '-' :: r2 =>
        match exactDigits 4 r2 with
        | some (d4, r3) =>
          if isBoundary d4.getLast? r3.head? then some (d5 ++ '-' :: d4, r3) else none
        | none => none
      | _ => none
    match withExt with
    | some res => some res
    | none => if isBoundary d5.getLast? r1.head? then some (d5, r1) else none

def addrAltAt (cs : List Char) : Option (List Char × List Char) :=
  match addrAlt1 cs with
  | some r => some r
  | none =>
    match addrAlt2 cs with
    | some r => some r
    | none => addrAlt3 cs

/-- Scanner for `ADDRESS_PATTERNS` (leading `\b` checked at each position). -/
def addrScanAux : Nat → Option Char → List Char → Bool
  | 0, _, _ => false
  | _ + 1, _, [] => false
  | fuel + 1, pre, c :: cs =>
    if isBoundary pre (some c) && (addrAltAt (c :: cs)).isSome then true
    else addrScanAux fuel (some c) cs

def addrSearch (s : List Char) : Bool := addrScanAux s.length none s

/-! ## `_classify_line` (parser.py lines 57-120) -/

inductive Category where
  | name | title | company | address | other
deriving DecidableEq, Repr

/-- Python `'x' in s` for a one-character literal needle. -/
def containsSub (needle : List Char) (hay : List Char) : Bool := isSubstr needle hay

def deptKeywords : List (List Char) :=
  ["department", "dept", "division", "team", "group", "unit"].map String.toList

def locationKeywords : List (List Char) :=
  ["usa", "united states", "canada", "uk", "california", "texas", "new york",
   "florida"].map String.toList

def nameSuffixTokens : List (List Char) :=
  ["jr", "sr", "iii", "ii", "phd", "md", "esq"].map String.toList

def ambiguousTitleWords : List (List Char) :=
  ["developer", "engineer", "manager", "designer"].map String.toList

/-- `word[0].isupper()` on a word produced by `split()` (always non-empty). -/
def headIsUpper (w : List Char) : Bool :=
  match w with
  | c :: _ => isUpperChar c
  | [] => false

def classifyLine (line : List Char) : Category :=
  let lineLower := lowerStr line
  let lineClean := pyStrip line
  if lineClean.length < 2 then .other
  else if emailSearch lineClean || phoneSearch lineClean || websiteSearch lineClean then .other
  else if titleKwSearch line then
    -- possible FirstName LastName collision with a title word
    let words := pySplitWs lineClean
    if words.length = 2 &&
        words.all (fun w => headIsUpper w && pyIsLowerStr (w.drop 1)) then
      let titleMatches := titleKwFindAll line
      match titleMatches with
      | [m] => if (ambiguousTitleWords).contains (lowerStr m) then .name else .title
      | _ => .title
    else .title
  else if companyKwSearch line then .company
  else if addrSearch line then .address
  else
    let words := pySplitWs lineClean
    if words.length ≤ 4 && !lineClean.any isDigitChar then
      let ind1 := words.all headIsUpper
      let ind2 := words.length = 2
      let ind3 := words.any (fun w => nameSuffixTokens.contains (lowerStr w))
      let ind4 := 2 ≤ words.length && words.all pyIsAlphaStr
      if ind1 || ind2 || ind3 || ind4 then .name
      else if words.length ≤ 3 && headIsUpper lineClean then .name
      else if deptKeywords.any (fun k => containsSub k lineLower) then .company
      else if locationKeywords.any (fun k => containsSub k lineLower) then .address
      else .other
    else if deptKeywords.any (fun k => containsSub k lineLower) then .company
    else if locationKeywords.any (fun k => containsSub k lineLower) then .address
    else .other

/-! ## `_smart_parse_fields` (parser.py lines 123-165) -/

structure Fields where
  full_name : Option (List Char)
  title : Option (List Char)
  company : Option (List Char)
  address : Option (List Char)
deriving DecidableEq, Repr

/-- Lines of a given classification, in order. -/
def bucket (cat : Category) (cleanedLines : List (List Char)) : List (List Char) :=
  cleanedLines.filter (fun l => classifyLine l = cat)

/-- `all_address_lines`: address-classified lines plus `other` lines matching
the address pattern (parser.py line 145). -/
def allAddressLines (cleanedLines : List (List Char)) : List (List Char) :=
  bucket .address cleanedLines ++
    (bucket .other cleanedLines).filter addrSearch

/-- `remaining_lines` of the title fallback (parser.py lines 151-153): lines
not equal to the already-selected full name or company and not among the
address lines.  `fn`/`co` are the current dict values (possibly `None`). -/
def remainingLines (cleanedLines : List (List Char)) (fn co : Option (List Char)) :
    List (List Char) :=
  cleanedLines.filter (fun l =>
    some l ≠ fn && some l ≠ co && !(allAddressLines cleanedLines).contains l)

/-- `classified['full_name']` after the first-line fallback of parser.py
lines 141-142. -/
def spfFullName (cleanedLines : List (List Char)) : Option (List Char) :=
  let fullName0 := (bucket .name cleanedLines).head?
  if !isTruthy fullName0 && !cleanedLines.isEmpty then cleanedLines.head?
  else fullName0

/-- `classified['title']` after the positional fallback of parser.py
lines 149-155 (guarded by the TOTAL number of cleaned lines). -/
def spfTitle (cleanedLines : List (List Char)) : Option (List Char) :=
  let title0 := (bucket .title cleanedLines).head?
  if !isTruthy title0 && 2 ≤ cleanedLines.length then
    match remainingLines cleanedLines (spfFullName cleanedLines)
        ((bucket .company cleanedLines).head?) with
    | l :: _ => some l
    | [] => title0
  else title0

/-- `classified['company']` after the positional fallback of parser.py
lines 157-163. -/
def spfCompany (cleanedLines : List (List Char)) : Option (List Char) :=
  let company0 := (bucket .company cleanedLines).head?
  if !isTruthy company0 && 3 ≤ cleanedLines.length then
    match remainingLines cleanedLines (spfFullName cleanedLines)
        (spfTitle cleanedLines) with
    | l :: _ => some l
    | [] => company0
  else company0

def smartParseFields (cleanedLines : List (List Char)) : Fields :=
  let addrLines := allAddressLines cleanedLines
  { full_name := spfFullName cleanedLines,
    title := spfTitle cleanedLines,
    company := spfCompany cleanedLines,
    address := if !addrLines.isEmpty then some (joinWith '\n' addrLines) else none }

/-! ## `_validate_field_assignments` (parser.py lines 168-235) -/

/-- Promotion condition of the name-recovery scan (parser.py lines 178-185):
value non-empty, at most 3 words, first character uppercase, no digit,
length > 3, and matching neither keyword pattern. -/
def promotableName (v : List Char) : Bool :=
  !v.isEmpty && (pySplitWs v).length ≤ 3 && headIsUpper v &&
    !v.any isDigitChar && 3 < v.length &&
    !companyKwSearch v && !titleKwSearch v

/-- Step a: if contact info exists but no name, promote the first qualifying
non-address field (dict iteration order: title, then company). -/
def promoteNameStep (f : Fields) (hasContactInfo : Bool) : Fields :=
  if hasContactInfo && !isTruthy f.full_name then
    match f.title with
    | some t =>
      if promotableName t then { f with full_name := some t, title := none }
      else
        match f.company with
        | some c =>
          if promotableName c then { f with full_name := some c, company := none }
          else f
        | none => f
    | none =>
      match f.company with
      | some c =>
        if promotableName c then { f with full_name := some c, company := none }
        else f
      | none => f
  else f

/-- `re.sub(r'^(at|@)\s+', '', company, flags=re.I)` (parser.py line 214). -/
def stripCompanyLead (c : List Char) : List Char :=
  if ciHeadMatch "at".toList c then
    let rest := c.drop 2
    let ws := rest.takeWhile isWsChar
    if ws.isEmpty then
      match c with
      | '@' :: r =>
        let ws2 := r.takeWhile isWsChar
        if ws2.isEmpty then c else r.drop ws2.length
      | _ => c
    else rest.drop ws.length
  else
    match c with
    | '@' :: r =>
      let ws2 := r.takeWhile isWsChar
      if ws2.isEmpty then c else r.drop ws2.length
    | _ => c

/-- Steps b-c: title/company swap and comma split (parser.py lines 191-208).
The Python local `title` is bound before the swap; after a swap the company
slot is necessarily truthy, so the comma branch only ever fires when no swap
happened. -/
def titleCompanyFixes (f : Fields) : Fields :=
  if isTruthy f.title then
    let t0 := f.title.getD []
    let f1 :=
      if companyKwSearch t0 && isTruthy f.company &&
          !companyKwSearch (f.company.getD []) then
        { f with title := f.company, company := f.title }
      else f
    if t0.contains ',' && !isTruthy f1.company then
      match (pySplitOn ',' t0).map pyStrip with
      | [p1, p2] =>
        if companyKwSearch p2 then { f1 with title := some p1, company := some p2 }
        else if titleKwSearch p1 then { f1 with title := some p1, company := some p2 }
        else f1
      | _ => f1
    else f1
  else f

/-- Step d: strip a leading `at `/`@ ` from the company (parser.py lines 211-216). -/
def companyLeadStep (f : Fields) : Fields :=
  if isTruthy f.company then { f with company := some (stripCompanyLead (f.company.getD [])) }
  else f

/-- Step e: re-validate each address line (parser.py lines 219-233); company
and title captures are visible to later lines. -/
def addressCleanupStep (f : Fields) : Fields :=
  if isTruthy f.address then
    let addrLines := ((pySplitOn '\n' (f.address.getD [])).map pyStrip).filter
      (fun l => !l.isEmpty)
    let step := fun (st : Fields × List (List Char)) (line : List Char) =>
      let (g, kept) := st
      match classifyLine line with
      | .address => (g, kept ++ [line])
      | .other => (g, kept ++ [line])
      | .company =>
        if !isTruthy g.company then ({ g with company := some line }, kept)
        else (g, kept)
      | .title =>
        if !isTruthy g.title then ({ g with title := some line }, kept)
        else (g, kept)
      | .name => (g, kept)
    let (g, kept) := addrLines.foldl step (f, [])
    { g with address := if !kept.isEmpty then some (joinWith '\n' kept) else none }
  else f

def validateFieldAssignments (f : Fields) (emails phones : List (List Char)) : Fields :=
  let hasContactInfo := !emails.isEmpty || !phones.isEmpty
  addressCleanupStep (companyLeadStep (titleCompanyFixes (promoteNameStep f hasContactInfo)))

/-! ## `_extract_structured_data` (parser.py lines 238-267) -/

/-- First-occurrence de-duplication; models `list(set(...))` at parser.py
line 243.  CPython's set iteration order is implementation-defined (string
hashes are randomized per process), so no order can be faithfully replicated;
first-seen order is used here, and nothing proved below about the email list
beyond its membership and freedom from duplicates depends on this choice. -/
def pySetListAux : Nat → List (List Char) → List (List Char)
  | 0, _ => []
  | _ + 1, [] => []
  | fuel + 1, a :: rest => a :: pySetListAux fuel (rest.filter (fun x => x ≠ a))

def pySetList (l : List (List Char)) : List (List Char) := pySetListAux l.length l

def extractedEmails (raw : List Char) : List (List Char) :=
  pySetList ((emailFindAll raw).map (fun e => pyStrip (lowerStr e)))

def extractedPhones (raw : List Char) : List (List Char) :=
  (phoneFindAll raw).filter (fun p => 10 ≤ (phoneClean p).length)

def extractedWebsite (raw : List Char) (emails : List (List Char)) :
    Option (List Char) :=
  (websiteFindAll raw).find? (fun m => !emails.any (fun e => isSubstr m e))

/-! ## `Contact` (models.py lines 13-74)

`emails: List[EmailStr]` delegates per-item validity to pydantic's `EmailStr`
(the `email-validator` package), which is outside this repository.

Modelled from the spec: the data model requires `emails` to be "each
RFC-valid"; per RFC 5321/5322 (and the `email-validator` behaviour pydantic
wraps) the domain is dot-separated labels of letters, digits and hyphens with
no leading/trailing hyphen, and the local part uses letters, digits and the
usual unquoted special characters.  Underscores are valid in the local part
but not in domain labels. -/

def emailLocalValidChar (c : Char) : Bool :=
  isAlnumChar c || c = '.' || c = '_' || c = '%' || c = '+' || c = '-'

def emailLabelValid (lab : List Char) : Bool :=
  !lab.isEmpty && lab.all (fun c => isAlnumChar c || c = '-') &&
    lab.head? ≠ some '-' && lab.getLast? ≠ some '-'

def emailRfcValid (e : List Char) : Bool :=
  match pySplitOn '@' e with
  | [loc, dom] =>
    !loc.isEmpty && loc.all emailLocalValidChar &&
      (let labs := pySplitOn '.' dom
       2 ≤ labs.length && labs.all emailLabelValid)
  | _ => false

structure Contact where
  full_name : Option (List Char)
  title : Option (List Char)
  company : Option (List Char)
  emails : List (List Char)
  phones : List (List Char)
  website : Option (List Char)
  address : Option (List Char)
  ocr_confidence : Option ℚ
deriving DecidableEq, Repr

/-- `_validate_name` (models.py lines 39-57). -/
def validateName : Option (List Char) → Option (List Char)
  | none => none
  | some v =>
    if v.isEmpty then none
    else
      let cleaned := joinWith ' ' (pySplitWs (pyStrip v))
      if cleaned.length < 2 || 100 < cleaned.length then none
      else if !cleaned.any isAlphaChar then none
      else some cleaned

/-- `_clean_phones` (models.py lines 25-37). -/
def cleanPhones (v : List (List Char)) : List (List Char) :=
  v.filterMap (fun phone =>
    let cleaned := phoneClean phone
    if 10 ≤ cleaned.length then some cleaned else none)

/-- `_validate_emails` (models.py lines 59-74) followed by per-item `EmailStr`
validation; an invalid address raises a pydantic `ValidationError`, modelled
as `Except.error`. -/
def validateEmails (v : List (List Char)) : Except (List Char) (List (List Char)) :=
  let pre := (v.filter (fun e => e.contains '@')).map (fun e => pyStrip (lowerStr e))
  if pre.all emailRfcValid then .ok pre
  else .error "value is not a valid email address".toList

/-- `Contact(...)` model construction: the `mode="before"` validators run on
their fields, then `EmailStr` checks each email.  Only the email field can
fail. -/
def mkContact (fn ti co : Option (List Char)) (em ph : List (List Char))
    (web addr : Option (List Char)) (conf : Option ℚ) : Except (List Char) Contact :=
  match validateEmails em with
  | .error e => .error e
  | .ok emails =>
    .ok { full_name := validateName fn, title := ti, company := co,
          emails := emails, phones := cleanPhones ph, website := web,
          address := addr, ocr_confidence := conf }

/-! ## `parse_contact` (parser.py lines 270-330) -/

/-- `re.search(r'\d{5}', line)`: five consecutive digits anywhere. -/
def hasFiveDigitRun (s : List Char) : Bool :=
  s.tails.any (fun t => 5 ≤ t.length && (t.take 5).all isDigitChar)

/-- `re.search(r'\d+\s+\w+', line)`: a digit run, then whitespace, then a word
character (each run is over a set disjoint from its successor, so maximal
munch is exact). -/
def hasNumWordRun (s : List Char) : Bool :=
  s.tails.any (fun t =>
    match t with
    | c :: _ =>
      isDigitChar c &&
        (let d := t.takeWhile isDigitChar
         let r1 := t.drop d.length
         let w := r1.takeWhile isWsChar
         !w.isEmpty && isWordOpt (r1.drop w.length).head?)
    | [] => false)

def addressHintWords : List (List Char) :=
  ["street", "ave", "road", "blvd", "drive", "suite", "floor"].map String.toList

/-- Address-recovery test of parser.py lines 296-299. -/
def potentialAddressLine (line : List Char) : Bool :=
  addrSearch line ||
    addressHintWords.any (fun k => containsSub k (lowerStr line)) ||
    hasFiveDigitRun line || hasNumWordRun line

/-- `LINE_SPLIT_RE.split` + strip + drop empties (parser.py line 272); the
`[\r\n]+` run-splitting only differs from single-character splitting by extra
empty segments, which the non-empty filter removes either way. -/
def splitLines (raw : List Char) : List (List Char) :=
  (((pySplitOn '\n' raw).flatMap (pySplitOn '\r')).map pyStrip).filter
    (fun l => !l.isEmpty)

def parseContact (raw : List Char) (ocrConfidence : Option ℚ) :
    Except (List Char) Contact :=
  let lines := splitLines raw
  let emails := extractedEmails raw
  let phones := extractedPhones raw
  let website := extractedWebsite raw emails
  let cleanedLines := lines.filter (fun l =>
    !emails.contains l && !phones.contains l &&
      (website = none || website ≠ some l))
  let classified := smartParseFields cleanedLines
  let validated := validateFieldAssignments classified emails phones
  let withAddr :=
    if !isTruthy validated.address then
      let potential := cleanedLines.filter potentialAddressLine
      if !potential.isEmpty then
        { validated with address := some (joinWith '\n' potential) }
      else validated
    else validated
  mkContact withAddr.full_name withAddr.title withAddr.company emails phones
    website withAddr.address ocrConfidence

/-! ## `_calculate_ocr_confidence` (ocr.py lines 330-369)

All arithmetic the source performs on the score (sums of decimal literals, a
ratio comparison) is exact, so floats are modelled by `ℚ`.  The source also
computes a character-density local it never reads (ocr.py lines 342-343);
it is reproduced here, with `ℚ`'s total division standing in for Python's
float division (which would raise only on a zero-pixel shape, impossible for
shapes of actual image arrays). -/

def calcOcrConfidence (text : List Char) (shape : Nat × Nat) : ℚ :=
  let textClean := pyStrip text
  if textClean.isEmpty then 0
  else if textClean.length < 5 then 2/10
  else
    let totalPixels : ℚ := (shape.1 : ℚ) * (shape.2 : ℚ)
    let _charDensity : ℚ := (textClean.length : ℚ) / (totalPixels / 10000)
    let confidence : ℚ := 5/10
    let confidence :=
      if 10 ≤ textClean.length && textClean.length ≤ 200 then confidence + 2/10
      else confidence
    let hasLetters := textClean.any isAlphaChar
    let hasNumbers := textClean.any isDigitChar
    let hasSymbols := textClean.any (fun c => ("@.-()".toList).contains c)
    let confidence := if hasLetters then confidence + 1/10 else confidence
    let confidence := if hasNumbers then confidence + 1/10 else confidence
    let confidence := if hasSymbols then confidence + 1/10 else confidence
    let specialRatio : ℚ :=
      ((textClean.filter (fun c => !isAlnumChar c && c ≠ ' ')).length : ℚ) /
        (textClean.length : ℚ)
    let confidence := if 3/10 < specialRatio then confidence - 2/10 else confidence
    min 1 (max 0 confidence)

/-- Stated from the spec's own words (§4.3 step 4): base 0.5; +0.2 if the
trimmed length is in [10,200]; +0.1 each for presence of letters, digits and
contact symbols; −0.2 if the non-alphanumeric-non-space ratio exceeds 0.3;
flat 0.2 under 5 characters; 0.0 when empty; clamped to [0,1]. -/
def confidenceSpec (text : List Char) : ℚ :=
  let t := pyStrip text
  if t.isEmpty then 0
  else if t.length < 5 then 2/10
  else
    let lengthBonus : ℚ := if 10 ≤ t.length ∧ t.length ≤ 200 then 2/10 else 0
    let letterBonus : ℚ := if t.any isAlphaChar then 1/10 else 0
    let digitBonus : ℚ := if t.any isDigitChar then 1/10 else 0
    let symbolBonus : ℚ :=
      if t.any (fun c => c = '@' ∨ c = '.' ∨ c = '-' ∨ c = '(' ∨ c = ')') then 1/10 else 0
    let specials := (t.filter (fun c => !isAlnumChar c && c ≠ ' ')).length
    let penalty : ℚ := if (3 : ℚ)/10 < (specials : ℚ) / (t.length : ℚ) then 2/10 else 0
    min 1 (max 0 (5/10 + lengthBonus + letterBonus + digitBonus + symbolBonus - penalty))

/-! ## `detect_card_contours` (ocr.py lines 158-290)

The OpenCV geometry calls are uninterpreted: an `Img` is an array described
by its shape (all the surrounding control flow inspects), and a `Contour`
records the outcome of every cv2 computation the source performs on one
contour, a failed perspective warp (the `try`/`except` bodies at ocr.py lines
224-240 and 254-261) being `none`.  The Python control flow around these
values is translated exactly. -/

structure Img where
  h : Nat
  w : Nat
deriving DecidableEq, Repr

structure Contour where
  /-- `cv2.contourArea(cnt)` -/
  area : ℚ
  /-- `len(cv2.approxPolyDP(cnt, 0.015 * peri, True))` -/
  approxLenPrimary : Nat
  /-- `len(cv2.approxPolyDP(cnt, 0.02 * peri, True))` (fallback pass) -/
  approxLenFallback : Nat
  /-- `int(width)` of `cv2.minAreaRect(cnt)[1]` -/
  rectW : Int
  /-- `int(height)` of `cv2.minAreaRect(cnt)[1]` -/
  rectH : Int
  /-- `cv2.contourArea(cv2.convexHull(cnt))` -/
  hullArea : ℚ
  /-- result of `_four_point_transform(img, box)` on the min-area-rect box;
  `none` models a raised exception -/
  warpPrimary : Option Img
  /-- result of `_four_point_transform(img, approx.reshape(4, 2))`;
  `none` models a raised exception -/
  warpFallback : Option Img
deriving DecidableEq, Repr

/-- `_is_business_card_aspect_ratio` (ocr.py lines 99-113). -/
def isBusinessCardAspect (width height : Int) (tolerance : ℚ) : Bool :=
  if width = 0 || height = 0 then false
  else
    let r : ℚ := (max width height : Int) / (min width height : Int)
    [((7 : ℚ)/4), 31/20, 159/100].any (fun target =>
      decide (|r - target| / target ≤ tolerance))

/-- `_filter_contours_by_geometry` (ocr.py lines 116-155). -/
def filterContoursByGeometry (contours : List Contour) (imgShape : Nat × Nat) :
    List Contour :=
  let totalArea : ℚ := (imgShape.1 : ℚ) * (imgShape.2 : ℚ)
  contours.filter (fun cnt =>
    let areaFrac := cnt.area / totalArea
    decide ((3 : ℚ)/200 < areaFrac ∧ areaFrac < 3/5) &&
      (3 ≤ cnt.approxLenPrimary && cnt.approxLenPrimary ≤ 6) &&
      isBusinessCardAspect cnt.rectW cnt.rectH (1/4) &&
      (if 0 < cnt.hullArea then decide ((17 : ℚ)/20 ≤ cnt.area / cnt.hullArea)
       else true))

/-- Primary per-contour processing (ocr.py lines 217-240): warp, then the
size and aspect checks; failures `continue`. -/
def primaryCards (contours : List Contour) : List Img :=
  contours.filterMap (fun cnt =>
    match cnt.warpPrimary with
    | none => none
    | some warped =>
      if warped.h < 100 || warped.w < 100 then none
      else if !isBusinessCardAspect (warped.w : Int) (warped.h : Int) (7/20) then none
      else some warped)

/-- Relaxed fallback pass (ocr.py lines 247-261); stops after 3 accepted. -/
def fallbackCards (totalArea : ℚ) : List Contour → List Img → List Img
  | [], acc => acc
  | cnt :: rest, acc =>
    if 3 ≤ acc.length then acc
    else
      let areaFrac := cnt.area / totalArea
      if decide ((5 : ℚ)/100 < areaFrac ∧ areaFrac < 8/10) &&
          4 ≤ cnt.approxLenFallback then
        match cnt.warpFallback with
        | some warped =>
          if 60 < warped.h && 60 < warped.w then
            fallbackCards totalArea rest (acc ++ [warped])
          else fallbackCards totalArea rest acc
        | none => fallbackCards totalArea rest acc
      else fallbackCards totalArea rest acc

/-- One step of the size-similarity duplicate check (ocr.py lines 275-285). -/
def dedupStep (kept : List Img) (card : Img) : List Img :=
  let isDup := kept.any (fun existing =>
    let sizeFrac : ℚ := ((card.h : ℚ) * (card.w : ℚ)) /
      ((existing.h : ℚ) * (existing.w : ℚ))
    decide ((8 : ℚ)/10 < sizeFrac ∧ sizeFrac < 12/10))
  if isDup then kept else kept ++ [card]

/-- Size-similarity de-duplication and cap (ocr.py lines 272-287). -/
def dedupCards (cards : List Img) : List Img :=
  if 1 < cards.length then
    match cards with
    | [] => []
    | first :: rest => (rest.foldl dedupStep [first]).take 3
  else cards

def detectCardContours (img : Img) (contours : List Contour) : List Img :=
  let grayShape := (img.h, img.w)
  let valid := filterContoursByGeometry contours grayShape
  let sorted := valid.mergeSort (fun a b => decide (b.area ≤ a.area))
  let top := sorted.take 5
  let cards1 := primaryCards top
  let cards2 :=
    if cards1.isEmpty then
      fallbackCards ((grayShape.1 : ℚ) * (grayShape.2 : ℚ)) contours []
    else cards1
  let cards3 := if cards2.isEmpty then [img] else cards2
  dedupCards cards3

/-! ## `ocr_image` (ocr.py lines 372-440)

The pre-processing (EXIF rotation, grayscale conversion and `deskew_image`,
ocr.py lines 375-383) runs outside every `try`/`except` in the function, so
an exception there propagates to the caller; `deskew_image` does raise on an
all-dark crop, where `np.where(gray > 0)` is empty and `cv2.minAreaRect` is
applied to an empty point array (ocr.py lines 44-45).  Each
`pytesseract.image_to_string` call is uninterpreted: `none` models a raised
exception, `some text` a recognition result.  The five enhancement variants
share the deskewed image's shape (every cv2 enhancement used preserves
shape), which is what the confidence computation reads. -/

structure OcrEnv where
  /-- shape of the deskewed grayscale image, or `none` when pre-processing
  raises (e.g. deskew of an all-dark crop) -/
  pre : Option (Nat × Nat)
  /-- `pytesseract.image_to_string` outcome for enhancement variant `i`
  (0-4) under OCR configuration `j` (0-4) -/
  attempt : Nat → Nat → Option (List Char)
  /-- outcome of the final basic fallback pass (ocr.py lines 424-435) -/
  fallbackAttempt : Option (List Char)

def ocrBestStep (shape : Nat × Nat) (env : OcrEnv) (best : List Char × ℚ)
    (ij : Nat × Nat) : List Char × ℚ :=
  match env.attempt ij.1 ij.2 with
  | none => best
  | some text =>
    let confidence := calcOcrConfidence text shape
    if best.2 < confidence then (text, confidence) else best

def ocrImage (env : OcrEnv) : Except Unit (List Char × ℚ) :=
  match env.pre with
  | none => .error ()
  | some shape =>
    let pairs := (List.range 5).flatMap (fun i => (List.range 5).map (fun j => (i, j)))
    let best := pairs.foldl (ocrBestStep shape env) ([], 0)
    let best2 :=
      if best.2 < 3/10 then
        match env.fallbackAttempt with
        | none => best
        | some text =>
          let c := calcOcrConfidence text shape
          if best.2 < c then (text, c) else best
      else best
    .ok best2

/-! ## Concrete inputs used by the claim theorems -/

/-- End-to-end scenario A input (test_parser.py lines 9-16). -/
def rawTextA : List Char :=
  ("John Smith\nSenior Software Engineer\nTech Solutions Inc.\n" ++
   "john.smith@techsolutions.com\n(555) 123-4567\nwww.techsolutions.com\n" ++
   "123 Main St\nAnytown, NY 12345").toList

/-- Input consisting of a single title-classified line. -/
def rawTitleOnly : List Char := "Senior Software Engineer".toList

/-- Input whose two lines are both the same phone number. -/
def rawDupPhones : List Char := "(555) 123-4567\n(555) 123-4567".toList

/-- Input consisting of a single phone number. -/
def rawPhoneOnly : List Char := "555-000-1234".toList

/-- Input whose only token matches `EMAIL_RE` but has an underscore in a
domain label, which `EmailStr` rejects. -/
def rawBadEmail : List Char := "john@my_server.com".toList

/-- OCR environment of an all-dark crop: `np.where(gray > 0)` is empty, so
`cv2.minAreaRect` raises inside `deskew_image` before any recognition
attempt is reached. -/
def blackCropEnv : OcrEnv :=
  { pre := none, attempt := fun _ _ => none, fallbackAttempt := none }

/-- OCR environment where pre-processing succeeds and every recognition
attempt (all 25 variant/mode combinations and the basic fallback) throws. -/
def allThrowEnv : OcrEnv :=
  { pre := some (80, 120), attempt := fun _ _ => none, fallbackAttempt := none }

/-- Two-line input: a name line and an `other` line. -/
def lineNameCE : List Char := "John Smith".toList

/-- An `other`-classified line with no address pattern. -/
def lineOtherCE : List Char := "the quick brown fox jumps".toList

/-! ## Claim theorems -/

set_option maxRecDepth 1000000

/-- Claim C3: on scenario A, `parse_contact` returns
full name "John Smith", title "Senior Software Engineer", company
"Tech Solutions Inc.", exactly the one e-mail, one phone entry, the website
"www.techsolutions.com", and an address containing "123 Main St". -/
theorem claim3_scenario_a :
    (parseContact rawTextA none).map Contact.full_name =
      .ok (some "John Smith".toList) ∧
    (parseContact rawTextA none).map Contact.title =
      .ok (some "Senior Software Engineer".toList) ∧
    (parseContact rawTextA none).map Contact.company =
      .ok (some "Tech Solutions Inc.".toList) ∧
    (parseContact rawTextA none).map Contact.emails =
      .ok ["john.smith@techsolutions.com".toList] ∧
    (parseContact rawTextA none).map (fun c => c.phones.length) = .ok 1 ∧
    (parseContact rawTextA none).map Contact.website =
      .ok (some "www.techsolutions.com".toList) ∧
    (parseContact rawTextA none).map
        (fun c => (c.address.map (fun a => isSubstr "123 Main St".toList a)).getD false) =
      .ok true := by
  refine ⟨?_, ?_, ?_, ?_, ?_, ?_, ?_⟩ <;> rfl

/-- Claim C1 (counterexample): the input consists of one line classified
`title` (so no line is classified `name`), yet `parse_contact` assigns that
first line as the full name — parser.py lines 141-142 contain exactly the
first-line fallback the claim denies. -/
theorem claim1_no_fallback_refuted :
    (splitLines rawTitleOnly).map classifyLine = [Category.title] ∧
    (parseContact rawTitleOnly none).map Contact.full_name =
      .ok (some "Senior Software Engineer".toList) :=
  ⟨by rfl, by rfl⟩

/-- Claim C1 (amended): in `_smart_parse_fields` the full name is the first
`name`-classified line when one exists, and otherwise falls back to the first
cleaned line (parser.py lines 136, 141-142). -/
theorem claim1_name_selection (ls : List (List Char)) :
    (spfFullName ls) =
      match (bucket .name ls).head? with
      | some n => some n
      | none => ls.head? := by
  have hne : ∀ x ∈ bucket .name ls, x.isEmpty = false := by
    intro x hx
    have hcls : classifyLine x = .name := of_decide_eq_true (List.mem_filter.mp hx).2
    cases x with
    | nil => exact absurd hcls (by decide)
    | cons c cs => rfl
  unfold spfFullName
  cases hh : (bucket .name ls).head? with
  | none =>
    simp only [hh, isTruthy, Bool.not_false, Bool.true_and]
    cases ls with
    | nil => simp
    | cons a t => simp
  | some n =>
    have hn : n.isEmpty = false := by
      apply hne
      cases hb : bucket .name ls with
      | nil => rw [hb] at hh; simp at hh
      | cons y ys =>
        rw [hb] at hh
        simp only [List.head?_cons, Option.some.injEq] at hh
        simp [hb, hh]
    simp [hh, isTruthy, hn]

/-- Claim C2 (counterexample): a card text repeating one phone number yields
a `phones` list with the same cleaned value twice — phone matches are
filtered but never de-duplicated (parser.py lines 246-252, models.py
lines 31-37). -/
theorem claim2_order_dedup_refuted :
    (parseContact rawDupPhones none).map Contact.phones =
      .ok ["5551234567".toList, "5551234567".toList] ∧
    ¬ (["5551234567".toList, "5551234567".toList].Nodup) :=
  ⟨by rfl, by decide⟩

/-- Claim C9 (counterexample): `Contact` stores `ocr_confidence` exactly as
passed — the value 3 is kept even though it lies outside [0,1]; no validator
in models.py clamps it. -/
theorem claim9_no_clamp_refuted :
    (mkContact none none none [] [] none none (some 3)).map Contact.ocr_confidence =
      .ok (some 3) ∧ ¬ ((3 : ℚ) ≤ 1) :=
  ⟨by rfl, by norm_num⟩

/-- Claim C9 (amended): record construction passes the confidence value
through unchanged; the [0,1] guarantee comes solely from
`_calculate_ocr_confidence`, whose result is clamped into [0,1]. -/
theorem claim9_confidence_storage :
    (∀ fn ti co em ph web addr conf r,
      mkContact fn ti co em ph web addr conf = .ok r → r.ocr_confidence = conf) ∧
    (∀ text shape, 0 ≤ calcOcrConfidence text shape ∧ calcOcrConfidence text shape ≤ 1) := by
  constructor
  · intro fn ti co em ph web addr conf r h
    unfold mkContact at h
    cases hv : validateEmails em with
    | error e => rw [hv] at h; cases h
    | ok es => rw [hv] at h; cases h; rfl
  · intro text shape
    unfold calcOcrConfidence
    dsimp only
    constructor
    · split
      · norm_num
      · split
        · norm_num
        · exact le_min (by norm_num) (le_max_left 0 _)
    · split
      · norm_num
      · split
        · norm_num
        · exact min_le_left 1 _

/-- Claim C9 (amended) at a concrete instance: confidence 3 is stored as-is,
and a concrete confidence score lies in [0,1]. -/
theorem claim9_confidence_storage_inst :
    ({ full_name := none, title := none, company := none, emails := [],
       phones := [], website := none, address := none,
       ocr_confidence := some 3 } : Contact).ocr_confidence = some 3 ∧
    (0 ≤ calcOcrConfidence "abc".toList (5, 5) ∧
      calcOcrConfidence "abc".toList (5, 5) ≤ 1) :=
  ⟨claim9_confidence_storage.1 none none none [] [] none none (some 3) _ (by rfl),
   claim9_confidence_storage.2 "abc".toList (5, 5)⟩

/-- Claim C10: `EMAIL_RE` captures `john@my_server.com` (underscore is in
`\w`), but the strict e-mail field type rejects the underscore in the domain,
so `parse_contact` raises a validation error instead of returning a record. -/
theorem claim10_invalid_email_raises :
    emailFindAll rawBadEmail = [rawBadEmail] ∧
    parseContact rawBadEmail none =
      .error "value is not a valid email address".toList :=
  ⟨by rfl, by rfl⟩

/-- Claim C7: `deskew_image` runs outside every `try`/`except` of
`ocr_image` (ocr.py line 383), so its exception on an all-dark crop
propagates to the caller — contradicting "never raises"; when pre-processing
succeeds and every recognition attempt throws, the source does return
`("", 0.0)` as the claim describes. -/
theorem claim7_deskew_uncaught :
    ocrImage blackCropEnv = .error () ∧
    ocrImage allThrowEnv = .ok ([], 0) := by
  constructor
  · rfl
  · have h : ocrImage allThrowEnv =
        .ok (if (0 : ℚ) < 3/10 then (([] : List Char), (0 : ℚ)) else ([], 0)) := rfl
    rw [h, ite_self]

/-- Claim C8 (counterexample): with lines ["John Smith", "the quick brown fox
jumps"], no line is classified `title`, the first line becomes the full name,
and exactly ONE line remains unused — yet the positional fallback still
assigns it as title, because the source guards on the TOTAL number of cleaned
lines (`len(cleaned_lines) >= 2`, parser.py line 149), not on two unused
lines remaining. -/
theorem claim8_fallback_refuted :
    bucket .title [lineNameCE, lineOtherCE] = [] ∧
    (smartParseFields [lineNameCE, lineOtherCE]).full_name = some lineNameCE ∧
    (remainingLines [lineNameCE, lineOtherCE] (some lineNameCE) none).length = 1 ∧
    (smartParseFields [lineNameCE, lineOtherCE]).title = some lineOtherCE := by
  refine ⟨?_, ?_, ?_, ?_⟩ <;> rfl

/-- Membership in the contact-symbol whitelist `'@.-()'`, spelled as the
spec's disjunction. -/
theorem contactSymbolChar (c : Char) :
    (("@.-()".toList).contains c) =
      decide (c = '@' ∨ c = '.' ∨ c = '-' ∨ c = '(' ∨ c = ')') := by
  have h : "@.-()".toList = ['@', '.', '-', '(', ')'] := rfl
  rw [h]
  simp [List.contains_cons]

/-- Claim C5: the OCR confidence function computes exactly the spec's score:
0 for empty text, a flat 0.2 below 5 characters, otherwise 0.5 plus the
length/letter/digit/symbol bonuses minus the special-character penalty,
clamped to [0,1].  The positivity hypotheses only exclude the zero-pixel
shape (impossible for an actual image), on which the source's unused
char-density computation would divide by zero. -/
theorem claim5_confidence_refines_spec (text : List Char) (shape : Nat × Nat)
    (h1 : 0 < shape.1) (h2 : 0 < shape.2) :
    calcOcrConfidence text shape = confidenceSpec text := by
  unfold calcOcrConfidence confidenceSpec
  dsimp only
  split
  · rfl
  · split
    · rfl
    · simp only [Bool.and_eq_true, decide_eq_true_eq, contactSymbolChar]
      split_ifs <;> norm_num

/-- Claim C5 at a concrete instance. -/
theorem claim5_confidence_refines_spec_inst :
    calcOcrConfidence "John Smith".toList (5, 7) =
      confidenceSpec "John Smith".toList :=
  claim5_confidence_refines_spec "John Smith".toList (5, 7) (by norm_num) (by norm_num)

/-- The duplicate-filter fold never empties its accumulator. -/
theorem dedupFoldl_ne_nil (l : List Img) (acc : List Img) (h : acc ≠ []) :
    l.foldl dedupStep acc ≠ [] := by
  induction l generalizing acc with
  | nil => simpa using h
  | cons x rest ih =>
    rw [List.foldl_cons]
    apply ih
    unfold dedupStep
    dsimp only
    split
    · exact h
    · simp

/-- The output of the de-duplication/cap step has between 1 and 3 elements
for every non-empty input (and at most 3 for every input). -/
theorem dedupCards_bounds (cards : List Img) (h : cards ≠ []) :
    1 ≤ (dedupCards cards).length ∧ (dedupCards cards).length ≤ 3 := by
  unfold dedupCards
  split
  · rename_i hlen
    match cards with
    | [] => exact absurd rfl h
    | first :: rest =>
      have hne : rest.foldl dedupStep [first] ≠ [] :=
        dedupFoldl_ne_nil rest [first] (by simp)
      have hpos : 1 ≤ (rest.foldl dedupStep [first]).length := by
        cases hk : rest.foldl dedupStep [first] with
        | nil => exact absurd hk hne
        | cons a t => simp
      constructor
      · rw [List.length_take]
        omega
      · rw [List.length_take]
        omega
  · rename_i hlen
    have h1 : cards.length ≤ 1 := by omega
    have h0 : cards.length ≠ 0 := by
      simpa [List.length_eq_zero] using h
    omega

/-- The full-image fallback guard never produces the empty list. -/
theorem ifEmptyFull_ne_nil (a : List Img) (img : Img) :
    (if a.isEmpty then [img] else a) ≠ [] := by
  split
  · simp
  · rename_i hh
    simpa [List.isEmpty_iff] using hh

/-- Claim C6: card segmentation always returns between 1 and 3 crops, and
when neither the primary geometric filtering nor the relaxed fallback pass
yields any crop, the result is exactly the full input image. -/
theorem claim6_segmentation_bounds (img : Img) (contours : List Contour) :
    1 ≤ (detectCardContours img contours).length ∧
    (detectCardContours img contours).length ≤ 3 ∧
    (primaryCards (((filterContoursByGeometry contours (img.h, img.w)).mergeSort
          (fun a b => decide (b.area ≤ a.area))).take 5) = [] →
      fallbackCards ((img.h : ℚ) * (img.w : ℚ)) contours [] = [] →
      detectCardContours img contours = [img]) := by
  refine ⟨(dedupCards_bounds _ (ifEmptyFull_ne_nil _ _)).1,
          (dedupCards_bounds _ (ifEmptyFull_ne_nil _ _)).2, ?_⟩
  intro h1 h2
  unfold detectCardContours
  dsimp only
  rw [h1, h2]
  simp [dedupCards]

/-- Claim C6 at a concrete instance: an image with no detected contours
passes through both passes empty and yields exactly the full image. -/
theorem claim6_segmentation_bounds_inst :
    1 ≤ (detectCardContours ⟨5, 5⟩ []).length ∧
    (detectCardContours ⟨5, 5⟩ []).length ≤ 3 ∧
    detectCardContours ⟨5, 5⟩ [] = [⟨5, 5⟩] := by
  obtain ⟨a, b, c⟩ := claim6_segmentation_bounds ⟨5, 5⟩ []
  exact ⟨a, b, c (by simp [primaryCards, filterContoursByGeometry]) (by rfl)⟩

/-- Claim C8 (amended): when no line is classified `title`, the positional
fallback assigns the first unused line as title exactly when the card has at
least 2 cleaned lines IN TOTAL and at least one line remains unused;
symmetrically for the company with at least 3 total lines — the guards test
`len(cleaned_lines)`, not the number of unused lines (parser.py lines
149, 157). -/
theorem claim8_fallback_conditions (ls : List (List Char)) :
    (bucket .title ls = [] →
      spfTitle ls =
        if 2 ≤ ls.length then
          (remainingLines ls (spfFullName ls) ((bucket .company ls).head?)).head?
        else none) ∧
    (bucket .company ls = [] →
      spfCompany ls =
        if 3 ≤ ls.length then
          (remainingLines ls (spfFullName ls) (spfTitle ls)).head?
        else none) := by
  constructor
  · intro ht
    unfold spfTitle
    rw [ht]
    by_cases h2 : 2 ≤ ls.length
    · simp only [List.head?_nil, isTruthy, Bool.not_false, Bool.true_and, h2,
        decide_True, if_true]
      cases remainingLines ls (spfFullName ls) ((bucket .company ls).head?) <;> simp
    · simp [isTruthy, h2]
  · intro hc
    unfold spfCompany
    rw [hc]
    by_cases h3 : 3 ≤ ls.length
    · simp only [List.head?_nil, isTruthy, Bool.not_false, Bool.true_and, h3,
        decide_True, if_true]
      cases remainingLines ls (spfFullName ls) (spfTitle ls) <;> simp
    · simp [isTruthy, h3]

/-- Claim C8 (amended) at the concrete two-line card. -/
theorem claim8_fallback_conditions_inst :
    spfTitle [lineNameCE, lineOtherCE] =
      (if 2 ≤ ([lineNameCE, lineOtherCE] : List (List Char)).length then
        (remainingLines [lineNameCE, lineOtherCE] (spfFullName [lineNameCE, lineOtherCE])
          ((bucket .company [lineNameCE, lineOtherCE]).head?)).head?
      else none) ∧
    spfCompany [lineNameCE, lineOtherCE] =
      (if 3 ≤ ([lineNameCE, lineOtherCE] : List (List Char)).length then
        (remainingLines [lineNameCE, lineOtherCE] (spfFullName [lineNameCE, lineOtherCE])
          (spfTitle [lineNameCE, lineOtherCE])).head?
      else none) :=
  ⟨(claim8_fallback_conditions [lineNameCE, lineOtherCE]).1 (by rfl),
   (claim8_fallback_conditions [lineNameCE, lineOtherCE]).2 (by rfl)⟩

/-! ### Normalization lemmas for the e-mail pipeline (towards claim C2) -/

theorem toNat_ofNat_small (n : Nat) (h : n < 55296) : (Char.ofNat n).toNat = n := by
  unfold Char.ofNat
  rw [dif_pos (Or.inl h)]
  rfl

/-- Uppercase ASCII letters have code points in [65, 90]. -/
theorem isUpperChar_bounds (c : Char) (h : isUpperChar c = true) :
    65 ≤ c.toNat ∧ c.toNat ≤ 90 := by
  unfold isUpperChar at h
  rw [Bool.and_eq_true] at h
  exact ⟨of_decide_eq_true h.1, of_decide_eq_true h.2⟩

theorem lowerChar_toNat (c : Char) (h : isUpperChar c = true) :
    (lowerChar c).toNat = c.toNat + 32 := by
  obtain ⟨h1, h2⟩ := isUpperChar_bounds c h
  unfold lowerChar
  rw [if_pos h]
  exact toNat_ofNat_small _ (by omega)

theorem isUpperChar_lowerChar (c : Char) : isUpperChar (lowerChar c) = false := by
  cases hu : isUpperChar c with
  | false => simp [lowerChar, hu]
  | true =>
    obtain ⟨h1, h2⟩ := isUpperChar_bounds c hu
    have ht := lowerChar_toNat c hu
    cases hv : isUpperChar (lowerChar c) with
    | false => rfl
    | true =>
      obtain ⟨g1, g2⟩ := isUpperChar_bounds _ hv
      omega

theorem lowerChar_lowerChar (c : Char) : lowerChar (lowerChar c) = lowerChar c := by
  have h := isUpperChar_lowerChar c
  generalize lowerChar c = d at h ⊢
  simp [lowerChar, h]

/-- No character with code point above 32 is whitespace. -/
theorem isWsChar_false_of_large (c : Char) (h : 33 ≤ c.toNat) : isWsChar c = false := by
  unfold isWsChar
  have hne : ∀ d : Char, d.toNat ≤ 32 → (c == d) = false := by
    intro d hd
    rw [beq_eq_false_iff_ne]
    intro e
    rw [e] at h
    omega
  rw [show (decide (c = ' ')) = (c == ' ') from rfl]
  rw [show (decide (c = '\t')) = (c == '\t') from rfl]
  rw [show (decide (c = '\n')) = (c == '\n') from rfl]
  rw [show (decide (c = '\r')) = (c == '\r') from rfl]
  rw [show (decide (c = '\x0b')) = (c == '\x0b') from rfl]
  rw [show (decide (c = '\x0c')) = (c == '\x0c') from rfl]
  rw [hne ' ' (by decide), hne '\t' (by decide), hne '\n' (by decide),
    hne '\r' (by decide), hne '\x0b' (by decide), hne '\x0c' (by decide)]
  rfl

theorem isWsChar_lowerChar (c : Char) : isWsChar (lowerChar c) = isWsChar c := by
  cases hu : isUpperChar c with
  | false => unfold lowerChar; rw [if_neg (by simp [hu])]
  | true =>
    obtain ⟨h1, h2⟩ := isUpperChar_bounds c hu
    have ht := lowerChar_toNat c hu
    rw [isWsChar_false_of_large c (by omega),
      isWsChar_false_of_large (lowerChar c) (by omega)]

theorem lowerStr_lowerStr (s : List Char) : lowerStr (lowerStr s) = lowerStr s := by
  unfold lowerStr
  rw [List.map_map]
  exact List.map_congr_left (fun a _ => lowerChar_lowerChar a)

theorem lowerStr_pyStrip (s : List Char) :
    lowerStr (pyStrip s) = pyStrip (lowerStr s) := by
  have hws : (isWsChar ∘ lowerChar) = isWsChar := funext isWsChar_lowerChar
  have key : ∀ X : List Char,
      List.map lowerChar (X.dropWhile isWsChar) =
        (X.map lowerChar).dropWhile isWsChar := by
    intro X
    rw [List.dropWhile_map, hws]
  unfold pyStrip lowerStr
  rw [List.map_reverse, key, List.map_reverse, key]

/-- `pyStrip` in terms of Mathlib's `rdropWhile`. -/
theorem pyStrip_eq (s : List Char) :
    pyStrip s = List.rdropWhile isWsChar (s.dropWhile isWsChar) := rfl

/-- A list already stripped on the left stays stripped on the left after a
right strip (the right strip is a prefix of it). -/
theorem dropWhile_rdropWhile_dropWhile (s : List Char) :
    List.dropWhile isWsChar (List.rdropWhile isWsChar (List.dropWhile isWsChar s)) =
      List.rdropWhile isWsChar (List.dropWhile isWsChar s) := by
  cases hr : List.rdropWhile isWsChar (List.dropWhile isWsChar s) with
  | nil => simp
  | cons x t =>
    have hpre := List.rdropWhile_prefix isWsChar (List.dropWhile isWsChar s)
    rw [hr] at hpre
    obtain ⟨u, hu⟩ := hpre
    have hda := List.dropWhile_idempotent isWsChar s
    have hx : isWsChar x = false := by
      cases hxx : isWsChar x with
      | false => rfl
      | true =>
        rw [← hu, List.cons_append, List.dropWhile_cons, hxx] at hda
        have hlen := congrArg List.length hda
        have hle := List.Sublist.length_le
          (List.dropWhile_sublist (l := t ++ u) (p := isWsChar))
        simp only [if_true, List.length_cons] at hlen
        omega
    rw [List.dropWhile_cons, hx]
    simp

theorem pyStrip_idempotent (s : List Char) : pyStrip (pyStrip s) = pyStrip s := by
  rw [pyStrip_eq s, pyStrip_eq]
  rw [dropWhile_rdropWhile_dropWhile, List.rdropWhile_idempotent]

/-- Lower-case-then-strip normalization is idempotent. -/
theorem emailNorm_idem (x : List Char) :
    pyStrip (lowerStr (pyStrip (lowerStr x))) = pyStrip (lowerStr x) := by
  rw [lowerStr_pyStrip, lowerStr_lowerStr, pyStrip_idempotent]

theorem pySetListAux_subset :
    ∀ (fuel : Nat) (l : List (List Char)), ∀ x ∈ pySetListAux fuel l, x ∈ l := by
  intro fuel
  induction fuel with
  | zero => intro l x hx; simp [pySetListAux] at hx
  | succ n ih =>
    intro l x hx
    cases l with
    | nil => simp [pySetListAux] at hx
    | cons a rest =>
      simp only [pySetListAux, List.mem_cons] at hx
      rcases hx with h | h
      · simp [h]
      · have hmem := List.mem_filter.mp (ih _ _ h)
        simp [hmem.1]

theorem pySetListAux_nodup :
    ∀ (fuel : Nat) (l : List (List Char)), (pySetListAux fuel l).Nodup := by
  intro fuel
  induction fuel with
  | zero => intro l; simp [pySetListAux]
  | succ n ih =>
    intro l
    cases l with
    | nil => simp [pySetListAux]
    | cons a rest =>
      simp only [pySetListAux]
      rw [List.nodup_cons]
      refine ⟨?_, ih _⟩
      intro hmem
      have := (List.mem_filter.mp (pySetListAux_subset n _ _ hmem)).2
      simp at this

theorem extractedEmails_nodup (raw : List Char) : (extractedEmails raw).Nodup :=
  pySetListAux_nodup _ _

theorem extractedEmails_fixed (raw : List Char) :
    ∀ x ∈ extractedEmails raw, pyStrip (lowerStr x) = x := by
  intro x hx
  have := pySetListAux_subset _ _ x hx
  obtain ⟨e, _, he⟩ := List.mem_map.mp this
  rw [← he]
  exact emailNorm_idem e

theorem validateEmails_ok_eq (em : List (List Char))
    (hfix : ∀ x ∈ em, pyStrip (lowerStr x) = x) (es : List (List Char))
    (h : validateEmails em = .ok es) :
    es = em.filter (fun e => e.contains '@') := by
  unfold validateEmails at h
  dsimp only at h
  split at h
  · cases h
    calc (em.filter (fun e => e.contains '@')).map (fun e => pyStrip (lowerStr e))
        = (em.filter (fun e => e.contains '@')).map id :=
          List.map_congr_left (fun a ha => hfix a (List.mem_of_mem_filter ha))
      _ = em.filter (fun e => e.contains '@') := List.map_id _
  · cases h

theorem mkContact_ok_parts (fn ti co : Option (List Char))
    (em ph : List (List Char)) (web addr : Option (List Char)) (conf : Option ℚ)
    (r : Contact) (h : mkContact fn ti co em ph web addr conf = .ok r) :
    validateEmails em = .ok r.emails ∧ r.phones = cleanPhones ph := by
  unfold mkContact at h
  cases hv : validateEmails em with
  | error e => rw [hv] at h; cases h
  | ok es =>
    rw [hv] at h
    dsimp only at h
    cases h
    exact ⟨rfl, rfl⟩

/-- `parse_contact` is record construction on the extracted e-mails/phones. -/
theorem parseContact_as_mkContact (raw : List Char) (conf : Option ℚ) :
    ∃ fn ti co web addr, parseContact raw conf =
      mkContact fn ti co (extractedEmails raw) (extractedPhones raw) web addr conf :=
  ⟨_, _, _, _, _, rfl⟩

theorem cleanPhones_extracted (l : List (List Char)) :
    cleanPhones (l.filter (fun p => 10 ≤ (phoneClean p).length)) =
      l.filterMap (fun p =>
        if 10 ≤ (phoneClean p).length then some (phoneClean p) else none) := by
  induction l with
  | nil => rfl
  | cons a t ih =>
    by_cases h : 10 ≤ (phoneClean a).length
    · simp only [List.filter_cons, h, decide_True, if_true, List.filterMap_cons]
      unfold cleanPhones
      simp only [List.filterMap_cons, h, if_true]
      exact congrArg _ ih
    · simp only [List.filter_cons, List.filterMap_cons, h, decide_False, if_false]
      exact ih

/-- Claim C2 (amended): in every record `parse_contact` returns, the e-mail
list is duplicate-free (set-based dedup; iteration order modelled as first
occurrence), and the phone list is exactly the cleaned forms of the regex
matches in first-seen order with the sub-10-digit ones dropped — with no
de-duplication. -/
theorem claim2_email_phone_lists (raw : List Char) (conf : Option ℚ) (r : Contact)
    (h : parseContact raw conf = .ok r) :
    r.emails.Nodup ∧
    r.phones = (phoneFindAll raw).filterMap (fun p =>
      if 10 ≤ (phoneClean p).length then some (phoneClean p) else none) := by
  obtain ⟨fn, ti, co, web, addr, he⟩ := parseContact_as_mkContact raw conf
  rw [he] at h
  obtain ⟨hv, hp⟩ := mkContact_ok_parts _ _ _ _ _ _ _ _ _ h
  constructor
  · rw [validateEmails_ok_eq _ (extractedEmails_fixed raw) _ hv]
    exact (extractedEmails_nodup raw).filter _
  · rw [hp]
    exact cleanPhones_extracted (phoneFindAll raw)

/-- Claim C2 (amended) at the duplicated-phone card. -/
theorem claim2_email_phone_lists_inst :
    (({ full_name := none, title := none, company := none, emails := [],
        phones := ["5551234567".toList, "5551234567".toList], website := none,
        address := none, ocr_confidence := none } : Contact).emails.Nodup) ∧
    ({ full_name := none, title := none, company := none, emails := [],
       phones := ["5551234567".toList, "5551234567".toList], website := none,
       address := none, ocr_confidence := none } : Contact).phones =
      (phoneFindAll rawDupPhones).filterMap (fun p =>
        if 10 ≤ (phoneClean p).length then some (phoneClean p) else none) :=
  claim2_email_phone_lists rawDupPhones none _ (by rfl)

/-! ### Structure of `PHONE_RE` matches (towards claim C4) -/

theorem mem_of_head?_eq {α : Type} (l : List α) (x : α) (h : l.head? = some x) :
    x ∈ l := by
  cases l with
  | nil => cases h
  | cons a t =>
    rw [List.head?_cons, Option.some_inj] at h
    subst h
    exact List.mem_cons_self a t

theorem exactDigits_spec :
    ∀ (n : Nat) (cs d r : List Char), exactDigits n cs = some (d, r) →
      d.all isDigitChar = true ∧ d.length = n := by
  intro n
  induction n with
  | zero =>
    intro cs d r h
    unfold exactDigits at h
    cases h
    exact ⟨rfl, rfl⟩
  | succ k ih =>
    intro cs d r h
    cases cs with
    | nil => cases h
    | cons c t =>
      unfold exactDigits at h
      split at h
      · rename_i hc
        cases hx : exactDigits k t with
        | none => rw [hx] at h; cases h
        | some dr =>
          obtain ⟨d2, r2⟩ := dr
          rw [hx] at h
          dsimp only at h
          rw [Option.some_inj, Prod.mk.injEq] at h
          obtain ⟨hd, hr⟩ := h
          subst hd
          obtain ⟨ha, hl⟩ := ih t d2 r2 hx
          exact ⟨by simp [List.all_cons, hc, ha], by simp [hl]⟩
      · cases h

/-- Characters the phone cleaner keeps. -/
def phoneKeep (c : Char) : Bool := isDigitChar c || c = '+'

theorem phoneClean_eq_filter (s : List Char) : phoneClean s = s.filter phoneKeep := rfl

theorem sepChar_not_kept (c : Char) (h : isSepChar c = true) : phoneKeep c = false := by
  have hd : c = '-' ∨ c = '.' ∨ c = ' ' ∨ c = '\t' ∨ c = '\n' ∨ c = '\r' ∨
      c = '\x0b' ∨ c = '\x0c' := by
    unfold isSepChar isWsChar at h
    simpa [Bool.or_eq_true, decide_eq_true_eq, or_assoc] using h
  rcases hd with e | e | e | e | e | e | e | e <;> rw [e] <;> decide

theorem phoneClean_digits (d : List Char) (h : d.all isDigitChar = true) :
    phoneClean d = d := by
  rw [phoneClean_eq_filter]
  rw [List.filter_eq_self]
  intro a ha
  have := (List.all_eq_true.mp h) a ha
  unfold phoneKeep
  simp [this]

theorem phoneClean_sepOpt (s cs : List Char) (r : List Char)
    (h : (s, r) ∈ optChoices isSepChar cs) : phoneClean s = [] := by
  cases cs with
  | nil =>
    simp only [optChoices, List.mem_singleton, Prod.mk.injEq] at h
    rw [h.1]
    rfl
  | cons c t =>
    simp only [optChoices] at h
    split at h
    · rename_i hc
      simp only [List.mem_cons, List.mem_singleton, Prod.mk.injEq,
        List.not_mem_nil, or_false] at h
      rcases h with ⟨h1, _⟩ | ⟨h1, _⟩
      · subst h1
        simp [phoneClean_eq_filter, List.filter_cons, sepChar_not_kept c hc]
      · subst h1
        rfl
    · simp only [List.mem_cons, List.mem_singleton, Prod.mk.injEq,
        List.not_mem_nil, or_false] at h
      rw [h.1]
      rfl

theorem phoneClean_parenOpt (p : Char) (hp : phoneKeep p = false) (s cs r : List Char)
    (h : (s, r) ∈ optChoices (· = p) cs) : phoneClean s = [] := by
  cases cs with
  | nil =>
    simp only [optChoices, List.mem_singleton, Prod.mk.injEq] at h
    rw [h.1]
    rfl
  | cons c t =>
    simp only [optChoices] at h
    split at h
    · rename_i hc
      simp only [decide_eq_true_eq] at hc
      simp only [List.mem_cons, List.mem_singleton, Prod.mk.injEq,
        List.not_mem_nil, or_false] at h
      rcases h with ⟨h1, _⟩ | ⟨h1, _⟩
      · subst h1
        rw [hc]
        simp [phoneClean_eq_filter, List.filter_cons, hp]
      · subst h1
        rfl
    · simp only [List.mem_cons, List.mem_singleton, Prod.mk.injEq,
        List.not_mem_nil, or_false] at h
      rw [h.1]
      rfl

theorem phoneClean_append (a b : List Char) :
    phoneClean (a ++ b) = phoneClean a ++ phoneClean b := List.filter_append _ _

/-- Every match of the first main alternative cleans to exactly 10 digits. -/
theorem phoneAlt1_clean (cs m r : List Char) (h : phoneAlt1 cs = some (m, r)) :
    (phoneClean m).all isDigitChar = true ∧ (phoneClean m).length = 10 := by
  unfold phoneAlt1 at h
  have hm := mem_of_head?_eq _ _ h
  rw [List.mem_flatMap] at hm
  obtain ⟨⟨o1, r1⟩, ho1, hm⟩ := hm
  dsimp only at hm
  cases h1 : exactDigits 3 r1 with
  | none => rw [h1] at hm; cases hm
  | some dr1 =>
    obtain ⟨d1, r2⟩ := dr1
    rw [h1] at hm
    dsimp only at hm
    rw [List.mem_flatMap] at hm
    obtain ⟨⟨o2, r3⟩, ho2, hm⟩ := hm
    dsimp only at hm
    rw [List.mem_flatMap] at hm
    obtain ⟨⟨s1, r4⟩, hs1, hm⟩ := hm
    dsimp only at hm
    cases h2 : exactDigits 3 r4 with
    | none => rw [h2] at hm; cases hm
    | some dr2 =>
      obtain ⟨d2, r5⟩ := dr2
      rw [h2] at hm
      dsimp only at hm
      rw [List.mem_flatMap] at hm
      obtain ⟨⟨s2, r6⟩, hs2, hm⟩ := hm
      dsimp only at hm
      cases h3 : exactDigits 4 r6 with
      | none => rw [h3] at hm; cases hm
      | some dr3 =>
        obtain ⟨d3, r7⟩ := dr3
        rw [h3] at hm
        dsimp only at hm
        rw [List.mem_singleton, Prod.mk.injEq] at hm
        obtain ⟨hm1, _⟩ := hm
        subst hm1
        obtain ⟨ha1, hl1⟩ := exactDigits_spec 3 r1 d1 r2 h1
        obtain ⟨ha2, hl2⟩ := exactDigits_spec 3 r4 d2 r5 h2
        obtain ⟨ha3, hl3⟩ := exactDigits_spec 4 r6 d3 r7 h3
        have e1 := phoneClean_parenOpt '(' (by decide) o1 cs r1 ho1
        have e2 := phoneClean_parenOpt ')' (by decide) o2 r2 r3 ho2
        have e3 := phoneClean_sepOpt s1 r3 r4 hs1
        have e4 := phoneClean_sepOpt s2 r5 r6 hs2
        simp only [phoneClean_append, e1, e2, e3, e4,
          phoneClean_digits d1 ha1, phoneClean_digits d2 ha2,
          phoneClean_digits d3 ha3, List.nil_append, List.append_nil]
        constructor
        · simp only [List.all_append, ha1, ha2, ha3]
          rfl
        · simp [hl1, hl2, hl3]

/-- Every match of the second main alternative cleans to exactly 10 digits. -/
theorem phoneAlt2_clean (cs m r : List Char) (h : phoneAlt2 cs = some (m, r)) :
    (phoneClean m).all isDigitChar = true ∧ (phoneClean m).length = 10 := by
  unfold phoneAlt2 at h
  have hm := mem_of_head?_eq _ _ h
  cases h1 : exactDigits 3 cs with
  | none => rw [h1] at hm; cases hm
  | some dr1 =>
    obtain ⟨d1, r2⟩ := dr1
    rw [h1] at hm
    dsimp only at hm
    rw [List.mem_flatMap] at hm
    obtain ⟨⟨s1, r3⟩, hs1, hm⟩ := hm
    dsimp only at hm
    cases h2 : exactDigits 3 r3 with
    | none => rw [h2] at hm; cases hm
    | some dr2 =>
      obtain ⟨d2, r4⟩ := dr2
      rw [h2] at hm
      dsimp only at hm
      rw [List.mem_flatMap] at hm
      obtain ⟨⟨s2, r5⟩, hs2, hm⟩ := hm
      dsimp only at hm
      cases h3 : exactDigits 4 r5 with
      | none => rw [h3] at hm; cases hm
      | some dr3 =>
        obtain ⟨d3, r6⟩ := dr3
        rw [h3] at hm
        dsimp only at hm
        rw [List.mem_singleton, Prod.mk.injEq] at hm
        obtain ⟨hm1, _⟩ := hm
        subst hm1
        obtain ⟨ha1, hl1⟩ := exactDigits_spec 3 cs d1 r2 h1
        obtain ⟨ha2, hl2⟩ := exactDigits_spec 3 r3 d2 r4 h2
        obtain ⟨ha3, hl3⟩ := exactDigits_spec 4 r5 d3 r6 h3
        have e3 := phoneClean_sepOpt s1 r2 r3 hs1
        have e4 := phoneClean_sepOpt s2 r4 r5 hs2
        simp only [phoneClean_append, e3, e4,
          phoneClean_digits d1 ha1, phoneClean_digits d2 ha2,
          phoneClean_digits d3 ha3, List.nil_append, List.append_nil]
        constructor
        · simp only [List.all_append, ha1, ha2, ha3]
          rfl
        · simp [hl1, hl2, hl3]

theorem phoneMain_clean (cs m r : List Char) (h : phoneMain cs = some (m, r)) :
    (phoneClean m).all isDigitChar = true ∧ (phoneClean m).length = 10 := by
  unfold phoneMain at h
  cases ha : phoneAlt1 cs with
  | some pr => rw [ha] at h; cases h; exact phoneAlt1_clean cs m r ha
  | none =>
    rw [ha] at h
    dsimp only at h
    cases hb : phoneAlt2 cs with
    | some pr => rw [hb] at h; cases h; exact phoneAlt2_clean cs m r hb
    | none =>
      rw [hb] at h
      dsimp only at h
      obtain ⟨hd, hl⟩ := exactDigits_spec 10 cs m r h
      rw [phoneClean_digits m hd]
      exact ⟨hd, hl⟩

/-- Every candidate for the optional prefix cleans to an optional `+`
followed by digits. -/
theorem phonePre_clean (cs pre r : List Char)
    (h : (pre, r) ∈ phonePreCands cs) :
    ∃ (b : Bool) (dp : List Char), phoneClean pre = (if b then ['+'] else []) ++ dp ∧
      dp.all isDigitChar = true := by
  unfold phonePreCands at h
  rw [List.mem_append] at h
  rcases h with h | h
  · rw [List.mem_flatMap] at h
    obtain ⟨⟨p, r1⟩, hp, h⟩ := h
    dsimp only at h
    rw [List.mem_flatMap] at h
    obtain ⟨n, _, h⟩ := h
    cases hx : exactDigits n r1 with
    | none => rw [hx] at h; cases h
    | some dr =>
      obtain ⟨d, r2⟩ := dr
      rw [hx] at h
      dsimp only at h
      rw [List.mem_map] at h
      obtain ⟨⟨sp, r3⟩, hsp, h⟩ := h
      dsimp only at h
      rw [Prod.mk.injEq] at h
      obtain ⟨h1, _⟩ := h
      subst h1
      obtain ⟨hd, _⟩ := exactDigits_spec n r1 d r2 hx
      have esp := phoneClean_sepOpt sp r2 r3 hsp
      -- p is [] or ['+']
      have hp2 : p = [] ∨ p = ['+'] := by
        cases cs with
        | nil =>
          simp only [optChoices, List.mem_singleton, Prod.mk.injEq] at hp
          exact Or.inl hp.1
        | cons c t =>
          simp only [optChoices] at hp
          split at hp
          · rename_i hc
            simp only [decide_eq_true_eq] at hc
            simp only [List.mem_cons, List.mem_singleton, Prod.mk.injEq,
              List.not_mem_nil, or_false] at hp
            rcases hp with ⟨h1, _⟩ | ⟨h1, _⟩
            · subst h1; subst hc; exact Or.inr rfl
            · exact Or.inl h1
          · simp only [List.mem_cons, List.mem_singleton, Prod.mk.injEq,
              List.not_mem_nil, or_false] at hp
            exact Or.inl hp.1
      rcases hp2 with hpe | hpe <;> subst hpe
      · exact ⟨false, d, by simp [phoneClean_append, esp, phoneClean_digits d hd], hd⟩
      · refine ⟨true, d, ?_, hd⟩
        show phoneClean (['+'] ++ (d ++ sp)) = _
        rw [phoneClean_append, phoneClean_append, esp, phoneClean_digits d hd,
          List.append_nil]
        rfl
  · rw [List.mem_singleton, Prod.mk.injEq] at h
    obtain ⟨h1, _⟩ := h
    subst h1
    exact ⟨false, [], by rfl, by rfl⟩

/-- Every `PHONE_RE` match cleans to an optional leading `+` followed by at
least 10 digits. -/
theorem phoneMatchAt_clean (cs m r : List Char) (h : phoneMatchAt cs = some (m, r)) :
    ∃ (b : Bool) (ds : List Char), phoneClean m = (if b then ['+'] else []) ++ ds ∧
      ds.all isDigitChar = true ∧ 10 ≤ ds.length := by
  unfold phoneMatchAt at h
  have hm := mem_of_head?_eq _ _ h
  rw [List.mem_filterMap] at hm
  obtain ⟨⟨pre, rest⟩, hpre, hm⟩ := hm
  dsimp only at hm
  cases hmain : phoneMain rest with
  | none => rw [hmain] at hm; cases hm
  | some pr =>
    obtain ⟨m2, r2⟩ := pr
    rw [hmain] at hm
    dsimp only at hm
    rw [Option.some_inj, Prod.mk.injEq] at hm
    obtain ⟨hm1, _⟩ := hm
    subst hm1
    obtain ⟨b, dp, hpc, hpd⟩ := phonePre_clean cs pre rest hpre
    obtain ⟨hmd, hml⟩ := phoneMain_clean rest m2 r2 hmain
    refine ⟨b, dp ++ phoneClean m2, ?_, ?_, ?_⟩
    · rw [phoneClean_append, hpc, List.append_assoc]
    · simp only [List.all_append, hpd, hmd]
      rfl
    · simp [hml]

/-- Every element produced by the scanning driver is a matcher output. -/
theorem mem_scanAux (mf : List Char → Option (List Char × List Char)) :
    ∀ (fuel : Nat) (s m : List Char), m ∈ scanAux mf fuel s →
      ∃ cs rest, mf cs = some (m, rest) := by
  intro fuel
  induction fuel with
  | zero => intro s m hm; simp [scanAux] at hm
  | succ n ih =>
    intro s m hm
    cases s with
    | nil => simp [scanAux] at hm
    | cons c cs =>
      unfold scanAux at hm
      cases hc : mf (c :: cs) with
      | some pr =>
        obtain ⟨mt, rest⟩ := pr
        rw [hc] at hm
        dsimp only at hm
        rcases List.mem_cons.mp hm with h | h
        · subst h
          exact ⟨c :: cs, rest, hc⟩
        · exact ih _ _ h
      | none =>
        rw [hc] at hm
        exact ih _ _ hm

/-- Claim C4: every phone entry in a returned record is an optional leading
`+` followed only by digits, with at least 10 digits; sub-10-digit cleaned
matches are filtered out rather than raising. -/
theorem claim4_phone_entries (raw : List Char) (conf : Option ℚ) (r : Contact)
    (h : parseContact raw conf = .ok r) :
    ∀ e ∈ r.phones, ∃ (b : Bool) (ds : List Char),
      e = (if b then ['+'] else []) ++ ds ∧ ds.all isDigitChar = true ∧
        10 ≤ ds.length := by
  intro e he
  obtain ⟨fn, ti, co, web, addr, hpc⟩ := parseContact_as_mkContact raw conf
  rw [hpc] at h
  obtain ⟨-, hp⟩ := mkContact_ok_parts _ _ _ _ _ _ _ _ _ h
  rw [hp] at he
  unfold cleanPhones at he
  rw [List.mem_filterMap] at he
  obtain ⟨ph, hph, hcl⟩ := he
  have hph2 : ph ∈ phoneFindAll raw := List.mem_of_mem_filter hph
  obtain ⟨cs, rest, hmatch⟩ := mem_scanAux phoneMatchAt _ _ _ hph2
  obtain ⟨b, ds, hsplit, hdig, hlen⟩ := phoneMatchAt_clean cs ph rest hmatch
  dsimp only at hcl
  split at hcl
  · rw [Option.some_inj] at hcl
    subst hcl
    exact ⟨b, ds, hsplit, hdig, hlen⟩
  · cases hcl

/-- Claim C4 at a concrete card: the single entry is ten digits. -/
theorem claim4_phone_entries_inst :
    ∃ (b : Bool) (ds : List Char),
      "5550001234".toList = (if b then ['+'] else []) ++ ds ∧
        ds.all isDigitChar = true ∧ 10 ≤ ds.length :=
  claim4_phone_entries rawPhoneOnly none
    { full_name := none, title := none, company := none, emails := [],
      phones := ["5550001234".toList], website := none, address := none,
      ocr_confidence := none }
    (by rfl) "5550001234".toList (by simp)

end Cards
